import Mathlib

/-!
Verification of the chained hash table of `chained_locked.c` /
`chained_lock_free.c` / `main.c` (MultiprocessorFinalProject).

The operations are embedded as pure Lean functions over an explicit table
state.  Machine integers (`uint64_t`) become `Nat` with an explicit
`% 2 ^ 64` at the one site where 64-bit wrap-around matters (the
multiply-add inside `hash1`).  The C sources compute the striped lock
index as `bucket_index % num_locks`; when `num_locks = 0` this is a
modulo by zero, which is undefined behaviour in C, so `get_lock_idx` and
every operation that performs it return `Option` values, with `none`
marking that undefined execution.  All claims are settled against the
sequential (quiescent-point) semantics of the operations, which is what
the striped-lock variant computes once its critical sections are
serialised.
-/

namespace Chained

/-- Size of the `uint64_t` value space; `key * 37 + 13` in `hash1` wraps
modulo this. -/
def U64_SIZE : Nat := 2 ^ 64

/-- Sentinel key, `UINT64_MAX` in `chained.h`. -/
def INVALID_KEY : Nat := U64_SIZE - 1

/-- Sentinel value, `UINT64_MAX` in `chained.h`. -/
def INVALID_VALUE : Nat := U64_SIZE - 1

/-- Chain-depth threshold that triggers a resize (`MAX_CHAIN_SIZE` in
both C variants). -/
def MAX_CHAIN_SIZE : Nat := 8

/-- Task-pool bound of the driver (`MAX_TASK_POOL` in `main.c`). -/
def MAX_TASK_POOL : Nat := 256

/-- Default initial bucket count (`INIT_NUM_BUCKETS` in `main.c`). -/
def INIT_NUM_BUCKETS : Nat := 64

/-- Divisor used by `main.c` to derive the lock count from the bucket
count (the C macro is named `INIT_NUM_LOCKS_RATIO` and equals 8). -/
def INIT_NUM_LOCKS_DIV : Nat := 8

/-- Chain node: the `Item` struct of `chained_locked.c` (`key`, `value`;
the `next` pointer becomes list structure). -/
structure Item where
  key : Nat
  value : Nat
deriving DecidableEq, Repr

/-- The `ChainedHashTable` struct.  Each bucket's `head` pointer and the
chain hanging off it become a `List Item`; `num_buckets` is the length
of `buckets` (the C code keeps the stored field equal to the allocated
array length at all times).  The lock array itself carries no data, only
its length `num_locks` matters for the embedding. -/
structure ChainedHashTable where
  buckets : List (List Item)
  num_locks : Nat
  num_items : Nat
deriving DecidableEq, Repr

/-- Number of buckets of a table (`num_buckets` field in C). -/
def ChainedHashTable.num_buckets (t : ChainedHashTable) : Nat :=
  t.buckets.length

/-- The hash function of `chained_locked.c`: `key = (key * 37) + 13` in
wrapping 64-bit arithmetic, then `key % num_buckets`. -/
def hash1 (key : Nat) (num_buckets : Nat) : Nat :=
  ((key * 37 + 13) % U64_SIZE) % num_buckets

/-- The hash function of `chained_lock_free.c`; its source text is
identical to the one in `chained_locked.c`. -/
def hash1_lock_free (key : Nat) (num_buckets : Nat) : Nat :=
  ((key * 37 + 13) % U64_SIZE) % num_buckets

/-- Modelled from the spec: the bucket-index formula
`h(k) = ((k * 37) + 13) mod B` of spec sections 2 and 4.1, read over the
mathematical integers (no 64-bit wrap).  Used only to compare the spec's
formula against the code's `hash1`. -/
def hash1_spec (key : Nat) (num_buckets : Nat) : Nat :=
  (key * 37 + 13) % num_buckets

/-- Striped lock index, `get_lock_idx` of `chained_locked.c`:
`bucket_index % num_locks`.  A zero `num_locks` makes the C expression a
modulo by zero (undefined behaviour), modelled as `none`. -/
def get_lock_idx (t : ChainedHashTable) (bucket_index : Nat) : Option Nat :=
  if t.num_locks = 0 then none else some (bucket_index % t.num_locks)

/-- Table construction, `create_table` of `chained_locked.c`: `calloc`
zeroes every bucket head, so all chains start empty; `num_items` starts
at 0. -/
def create_table (num_buckets : Nat) (num_locks : Nat) : ChainedHashTable :=
  ⟨List.replicate num_buckets [], num_locks, 0⟩

/-- The chain-walk of `lookup`: return the value of the first node whose
key matches, else the initial `value = INVALID_VALUE`. -/
def chainLookup : List Item → Nat → Nat
  | [], _ => INVALID_VALUE
  | it :: rest, key => if it.key = key then it.value else chainLookup rest key

/-- The `lookup` of `chained_locked.c`.  An `INVALID_KEY` argument
returns `INVALID_VALUE` before any bucket or lock index is computed;
otherwise the bucket's lock index is taken (`none` on the C modulo by
zero) and the chain is walked. -/
def lookup (t : ChainedHashTable) (key : Nat) : Option Nat :=
  if key = INVALID_KEY then some INVALID_VALUE
  else
    let bucket := hash1 key t.num_buckets
    match get_lock_idx t bucket with
    | none => none
    | some _ => some (chainLookup (t.buckets.getD bucket []) key)

/-- The update-in-place scan inside `insert`: walk the chain, and if a
node with the key exists overwrite its `value` (`curr->value = value`),
returning the rewritten chain; `none` when the key is absent (the C
loop then falls through to the head-prepend path). -/
def updateChain : List Item → Nat → Nat → Option (List Item)
  | [], _, _ => none
  | it :: rest, key, value =>
    if it.key = key then some (⟨it.key, value⟩ :: rest)
    else
      match updateChain rest key value with
      | some r => some (it :: r)
      | none => none

/-- The `insert` of `chained_locked.c`.  The three global flags
(`resize_enabled`, `speed_test`, `resize_needed`) become explicit
arguments, and the possibly updated `resize_needed` is returned next to
the table.  Sentinel key or value returns the state unchanged.  If the
scan finds the key the value is overwritten in place and nothing else
changes.  Otherwise a node is prepended at the bucket head, `num_items`
is incremented unless `speed_test`, and `resize_needed` is set when
resizing is enabled and the scan depth (the full chain length on the
not-found path) reached `MAX_CHAIN_SIZE`.  `none` models the C modulo by
zero in `get_lock_idx` when `num_locks = 0`. -/
def insert (t : ChainedHashTable) (key value : Nat)
    (resize_enabled speed_test resize_needed : Bool) :
    Option (ChainedHashTable × Bool) :=
  if key = INVALID_KEY then some (t, resize_needed)
  else if value = INVALID_VALUE then some (t, resize_needed)
  else
    let bucket := hash1 key t.num_buckets
    match get_lock_idx t bucket with
    | none => none
    | some _ =>
      let chain := t.buckets.getD bucket []
      match updateChain chain key value with
      | some c => some (⟨t.buckets.set bucket c, t.num_locks, t.num_items⟩, resize_needed)
      | none =>
        let depth := chain.length
        let items := if speed_test then t.num_items else t.num_items + 1
        let t2 : ChainedHashTable :=
          ⟨t.buckets.set bucket (⟨key, value⟩ :: chain), t.num_locks, items⟩
        let rn := if resize_enabled && MAX_CHAIN_SIZE ≤ depth then true else resize_needed
        some (t2, rn)

/-- The `resize_insert` of `chained_locked.c`: unconditionally prepend a
`(key, value)` node at the head of the target bucket of the new table
(no duplicate check, no counter update, no resize trigger). -/
def resize_insert (t : ChainedHashTable) (key value : Nat) :
    Option ChainedHashTable :=
  let bucket := hash1 key t.num_buckets
  match get_lock_idx t bucket with
  | none => none
  | some _ =>
    some ⟨t.buckets.set bucket (⟨key, value⟩ :: t.buckets.getD bucket []),
          t.num_locks, t.num_items⟩

/-- The inner `while` of the rehash loop in `resize`: walk one old chain
head to tail, `resize_insert`-ing every node into the new table. -/
def rehashChain : ChainedHashTable → List Item → Option ChainedHashTable
  | t, [] => some t
  | t, it :: rest =>
    match resize_insert t it.key it.value with
    | none => none
    | some t2 => rehashChain t2 rest

/-- The `omp for` of `resize`: process the old buckets in index order
(the sequential semantics of the work-shared loop), each via
`rehashChain`. -/
def rehashBuckets : ChainedHashTable → List (List Item) → Option ChainedHashTable
  | t, [] => some t
  | t, c :: cs =>
    match rehashChain t c with
    | none => none
    | some t2 => rehashBuckets t2 cs

/-- The `resize` of `chained_locked.c`: create a table with
`num_buckets * 2` buckets and `num_locks * 2` locks (both `size_t`
multiplications, hence the 64-bit wrap), copy `num_items` verbatim, then
rehash every node of every old bucket into it.  The concluding
`resize_needed = 0` store is the driver-visible effect of the
`omp single` block and is stated by the theorems where relevant. -/
def resize (t : ChainedHashTable) : Option ChainedHashTable :=
  let next_num_buckets := t.num_buckets * 2 % U64_SIZE
  let next_num_locks := t.num_locks * 2 % U64_SIZE
  let next0 := create_table next_num_buckets next_num_locks
  let next1 : ChainedHashTable := ⟨next0.buckets, next0.num_locks, t.num_items⟩
  rehashBuckets next1 t.buckets

/-- Run a list of `(key, value)` inserts in order, threading the table
and the `resize_needed` flag. -/
def runInserts (t : ChainedHashTable) (re st : Bool) (rn : Bool) :
    List (Nat × Nat) → Option (ChainedHashTable × Bool)
  | [] => some (t, rn)
  | p :: rest =>
    match insert t p.1 p.2 re st rn with
    | none => none
    | some q => runInserts q.1 re st q.2 rest

/-- Modelled from the spec: "the value of the most recent insert under
`k`" (spec P1/P4).  Folding keeps the value of the last pair whose key
is `k`; `none` when `k` never occurs. -/
def lastValue (ops : List (Nat × Nat)) (k : Nat) : Option Nat :=
  ops.foldl (fun acc p => if p.1 = k then some p.2 else acc) none

/-- Boolean form of invariant I1 for one chain: all keys pairwise
distinct. -/
def keyUniqueChain : List Item → Bool
  | [] => true
  | it :: rest => rest.all (fun b => it.key != b.key) && keyUniqueChain rest

/-- Invariant I1 of the spec for a whole table: within every bucket's
chain each key appears at most once. -/
def chainsUnique (t : ChainedHashTable) : Prop :=
  ∀ j < t.num_buckets, keyUniqueChain (t.buckets.getD j []) = true

/-- Invariant I2 of the spec (placement): every node sits in the bucket
its key hashes to. -/
def placedTable (t : ChainedHashTable) : Prop :=
  ∀ j < t.num_buckets, ∀ it ∈ t.buckets.getD j [], hash1 it.key t.num_buckets = j

/-- Concatenation of all chains of a bucket array, in bucket order. -/
def allItems : List (List Item) → List Item
  | [] => []
  | c :: cs => c ++ allItems cs

/-- Table creation as performed by `main.c` line 107:
`create_table(initial_buckets, initial_buckets / INIT_NUM_LOCKS_RATIO)`. -/
def main_create_table (initial_buckets : Nat) : ChainedHashTable :=
  create_table initial_buckets (initial_buckets / INIT_NUM_LOCKS_DIV)

/-- Validation of the `-b` flag in `main.c` lines 68-74: only an
`atoi` result equal to 0 is reset to the default; the argument is a C
`int`, hence `Int` here. -/
def validate_initial_buckets (n : Int) : Int :=
  if n = 0 then (INIT_NUM_BUCKETS : Int) else n

/-- Exit state of the driver's chunk-dispatch loop (`main.c` lines
119-227): the task counter `count`, whether some `fread` returned zero
bytes (the line-126 exit), the last observed `resize_needed` value
`temp`, and the `end_of_file` flag as set inside the loop. -/
structure LoopExit where
  count : Nat
  sawZero : Bool
  temp : Bool
  eof : Bool
deriving DecidableEq, Repr

/-- The dispatch loop of `main.c` lines 119-227.  `reads` is the
sequence of byte counts returned by successive `fread` calls (an
exhausted list means the stream is at end of file, where `fread` keeps
returning 0); `rflags` is the sequence of `resize_needed` values
observed by the atomic read at line 221.  `count` and `temp` are the
loop-local variables, `eof` the global `end_of_file` on entry (the loop
is only entered with it clear, and the line-211 check reads it). -/
def dispatchGo : List Nat → List Bool → Nat → Bool → Bool → LoopExit
  | [], _, count, temp, _ => ⟨count, true, temp, true⟩
  | bytes :: rest, rflags, count, temp, eof =>
    if bytes = 0 then ⟨count, true, temp, true⟩
    else if eof then ⟨count, false, temp, eof⟩
    else
      if MAX_TASK_POOL - 1 ≤ count + 1 then ⟨count + 1, false, temp, eof⟩
      else
        let temp2 := rflags.headD false
        if temp2 then ⟨count + 1, false, temp2, eof⟩
        else dispatchGo rest rflags.tail (count + 1) temp2 eof

/-- One dispatch phase of the driver: the loop above followed by the
line-229 statement
`if (!(count == MAX_TASK_POOL - 1) && !(temp_resize_needed)) end_of_file = 1`.
`count` and `temp` start at 0, `end_of_file` is clear on entry. -/
def dispatchBatch (reads : List Nat) (rflags : List Bool) : LoopExit :=
  let r := dispatchGo reads rflags 0 false false
  ⟨r.count, r.sawZero, r.temp,
    r.eof || (!(r.count == MAX_TASK_POOL - 1) && !r.temp)⟩

/-! Helper lemmas about list access, chains and uniqueness. -/

theorem getD_set_self {α : Type} :
    ∀ (l : List α) (i : Nat) (x d : α), i < l.length → (l.set i x).getD i d = x
  | [], i, x, d, h => absurd h (by simp)
  | _ :: _, 0, _, _, _ => rfl
  | _ :: l, i + 1, x, d, h => by
      simpa [List.set, List.getD] using getD_set_self l i x d (by simpa using h)

theorem getD_set_ne {α : Type} :
    ∀ (l : List α) (i j : Nat) (x d : α), i ≠ j → (l.set i x).getD j d = l.getD j d
  | [], _, _, _, _, _ => rfl
  | _ :: _, 0, 0, _, _, h => absurd rfl h
  | _ :: _, 0, _ + 1, _, _, _ => rfl
  | _ :: _, _ + 1, 0, _, _, _ => rfl
  | _ :: l, i + 1, j + 1, x, d, h => by
      simpa [List.set, List.getD] using getD_set_ne l i j x d (fun hc => h (by omega))

theorem getD_replicate {α : Type} :
    ∀ (n j : Nat) (d : α), (List.replicate n d).getD j d = d
  | 0, _, _ => rfl
  | _ + 1, 0, _ => rfl
  | n + 1, j + 1, d => by
      have := getD_replicate n j d
      simp only [List.replicate, List.getD] at this ⊢
      exact this

theorem getD_mem {α : Type} :
    ∀ (l : List α) (j : Nat) (d : α), j < l.length → l.getD j d ∈ l
  | [], j, _, h => absurd h (by simp)
  | a :: l, 0, d, _ => List.mem_cons_self a l
  | a :: l, j + 1, d, h => by
      have := getD_mem l j d (by simpa using h)
      simpa [List.getD] using Or.inr this

theorem mem_allItems_index :
    ∀ (cs : List (List Item)) (it : Item), it ∈ allItems cs →
      ∃ j, j < cs.length ∧ it ∈ cs.getD j []
  | [], it, h => absurd h (by simp [allItems])
  | c :: cs, it, h => by
      rcases List.mem_append.mp (by simpa [allItems] using h) with h1 | h2
      · exact ⟨0, by simp, by simpa [List.getD] using h1⟩
      · obtain ⟨j, hj, hm⟩ := mem_allItems_index cs it h2
        exact ⟨j + 1, by simpa using hj, by simpa [List.getD] using hm⟩

theorem allItems_of_mem :
    ∀ (cs : List (List Item)) (j : Nat) (it : Item), j < cs.length →
      it ∈ cs.getD j [] → it ∈ allItems cs
  | [], j, _, h, _ => absurd h (by simp)
  | c :: cs, 0, it, _, hm => by
      simp [allItems, List.mem_append]
      exact Or.inl (by simpa [List.getD] using hm)
  | c :: cs, j + 1, it, h, hm => by
      simp [allItems, List.mem_append]
      exact Or.inr (allItems_of_mem cs j it (by simpa using h) (by simpa [List.getD] using hm))

theorem chainLookup_not_found :
    ∀ (c : List Item) (k : Nat), (∀ it ∈ c, it.key ≠ k) → chainLookup c k = INVALID_VALUE
  | [], _, _ => rfl
  | it :: rest, k, h => by
      have hk : it.key ≠ k := h it (List.mem_cons_self it rest)
      simp [chainLookup, hk]
      exact chainLookup_not_found rest k (fun b hb => h b (List.mem_cons_of_mem it hb))

theorem chainLookup_unique :
    ∀ (c : List Item) (k : Nat) (it0 : Item), it0 ∈ c → it0.key = k →
      (∀ it ∈ c, it.key = k → it = it0) → chainLookup c k = it0.value
  | [], _, _, h, _, _ => absurd h (by simp)
  | a :: rest, k, it0, hmem, hk, huniq => by
      by_cases ha : a.key = k
      · have he : a = it0 := huniq a (List.mem_cons_self a rest) ha
        rw [← he]
        simp [chainLookup, ha]
      · have hne : it0 ≠ a := fun he => ha (by rw [← he]; exact hk)
        have hmem2 : it0 ∈ rest := by
          rcases List.mem_cons.mp hmem with h1 | h2
          · exact absurd h1 hne
          · exact h2
        simp [chainLookup, ha]
        exact chainLookup_unique rest k it0 hmem2 hk
          (fun it hit hk2 => huniq it (List.mem_cons_of_mem a hit) hk2)

theorem keyUniqueChain_mem_eq :
    ∀ (c : List Item), keyUniqueChain c = true →
      ∀ it it0, it ∈ c → it0 ∈ c → it.key = it0.key → it = it0
  | [], _, it, _, h, _, _ => absurd h (by simp)
  | a :: rest, hu, it, it0, hit, hit0, hkey => by
      have hall : ∀ b ∈ rest, a.key ≠ b.key := by
        intro b hb
        have := (Bool.and_eq_true _ _ |>.mp hu).1
        have := List.all_eq_true.mp this b hb
        simpa using this
      have hrest : keyUniqueChain rest = true := (Bool.and_eq_true _ _ |>.mp hu).2
      rcases List.mem_cons.mp hit with h1 | h2
      · rcases List.mem_cons.mp hit0 with g1 | g2
        · rw [h1, g1]
        · exact absurd (by rw [← h1]; exact hkey) (hall it0 g2)
      · rcases List.mem_cons.mp hit0 with g1 | g2
        · exact absurd (by rw [← g1]; exact hkey.symm) (hall it h2)
        · exact keyUniqueChain_mem_eq rest hrest it it0 h2 g2 hkey

theorem updateChain_some_self :
    ∀ (c : List Item) (k v : Nat) (c2 : List Item),
      updateChain c k v = some c2 → chainLookup c2 k = v
  | [], _, _, _, h => by simp [updateChain] at h
  | it :: rest, k, v, c2, h => by
      by_cases hk : it.key = k
      · simp [updateChain, hk] at h
        rw [← h]
        simp [chainLookup, hk]
      · simp only [updateChain, if_neg hk] at h
        cases hr : updateChain rest k v with
        | none => rw [hr] at h; exact absurd h (by simp)
        | some r =>
            rw [hr] at h
            simp at h
            rw [← h]
            simp [chainLookup, hk]
            exact updateChain_some_self rest k v r hr

theorem updateChain_some_other :
    ∀ (c : List Item) (k v : Nat) (c2 : List Item) (k2 : Nat),
      updateChain c k v = some c2 → k2 ≠ k → chainLookup c2 k2 = chainLookup c k2
  | [], _, _, _, _, h, _ => by simp [updateChain] at h
  | it :: rest, k, v, c2, k2, h, hne => by
      by_cases hk : it.key = k
      · simp [updateChain, hk] at h
        have hk2 : it.key ≠ k2 := by rw [hk]; exact fun he => hne he.symm
        rw [← h]
        simp [chainLookup, hk2, hne.symm]
      · simp only [updateChain, if_neg hk] at h
        cases hr : updateChain rest k v with
        | none => rw [hr] at h; exact absurd h (by simp)
        | some r =>
            rw [hr] at h
            simp at h
            rw [← h]
            by_cases hik : it.key = k2
            · simp [chainLookup, hik]
            · simp [chainLookup, hik]
              exact updateChain_some_other rest k v r k2 hr hne

theorem hash1_lt (k B : Nat) (hB : 0 < B) : hash1 k B < B :=
  Nat.mod_lt _ hB

theorem insert_step (t : ChainedHashTable) (k0 v0 : Nat) (re st rn : Bool)
    (hk : k0 ≠ INVALID_KEY) (hv : v0 ≠ INVALID_VALUE)
    (hB : 0 < t.num_buckets) (hL : 0 < t.num_locks) :
    ∃ t1 rn1, insert t k0 v0 re st rn = some (t1, rn1) ∧
      t1.num_buckets = t.num_buckets ∧ t1.num_locks = t.num_locks ∧
      ∀ k, chainLookup (t1.buckets.getD (hash1 k t.num_buckets) []) k
          = if k = k0 then v0
            else chainLookup (t.buckets.getD (hash1 k t.num_buckets) []) k := by
  have hL0 : t.num_locks ≠ 0 := Nat.pos_iff_ne_zero.mp hL
  have hb0 : hash1 k0 t.num_buckets < t.buckets.length := hash1_lt k0 _ hB
  cases huc : updateChain (t.buckets.getD (hash1 k0 t.num_buckets) []) k0 v0 with
  | some c =>
      refine ⟨⟨t.buckets.set (hash1 k0 t.num_buckets) c, t.num_locks, t.num_items⟩, rn,
        ?_, by simp [ChainedHashTable.num_buckets], rfl, ?_⟩
      · have huc2 := huc
        simp only [List.getD_eq_getElem?_getD] at huc2
        simp [insert, hk, hv, get_lock_idx, hL0, huc2]
      · intro k
        dsimp only
        by_cases hkk : k = k0
        · subst hkk
          rw [getD_set_self _ _ _ _ hb0, if_pos rfl]
          exact updateChain_some_self _ _ _ _ huc
        · by_cases hbb : hash1 k t.num_buckets = hash1 k0 t.num_buckets
          · rw [hbb, getD_set_self _ _ _ _ hb0, if_neg hkk]
            exact updateChain_some_other _ _ _ _ _ huc hkk
          · rw [getD_set_ne _ _ _ _ _ (Ne.symm hbb), if_neg hkk]
  | none =>
      refine ⟨⟨t.buckets.set (hash1 k0 t.num_buckets)
          (⟨k0, v0⟩ :: t.buckets.getD (hash1 k0 t.num_buckets) []),
        t.num_locks, if st then t.num_items else t.num_items + 1⟩,
        if re && MAX_CHAIN_SIZE ≤ (t.buckets.getD (hash1 k0 t.num_buckets) []).length
          then true else rn,
        ?_, by simp [ChainedHashTable.num_buckets], rfl, ?_⟩
      · have huc2 := huc
        simp only [List.getD_eq_getElem?_getD] at huc2
        simp [insert, hk, hv, get_lock_idx, hL0, huc2]
      · intro k
        dsimp only
        by_cases hkk : k = k0
        · subst hkk
          rw [getD_set_self _ _ _ _ hb0, if_pos rfl]
          simp [chainLookup]
        · by_cases hbb : hash1 k t.num_buckets = hash1 k0 t.num_buckets
          · rw [hbb, getD_set_self _ _ _ _ hb0, if_neg hkk]
            have hne : (⟨k0, v0⟩ : Item).key ≠ k := fun he => hkk (by simpa using he.symm)
            simp [chainLookup, hne]
          · rw [getD_set_ne _ _ _ _ _ (Ne.symm hbb), if_neg hkk]

theorem foldl_last (ops : List (Nat × Nat)) (k : Nat) :
    ∀ acc : Option Nat,
      ops.foldl (fun a q => if q.1 = k then some q.2 else a) acc =
        match ops.foldl (fun a q => if q.1 = k then some q.2 else a) none with
        | some v => some v
        | none => acc := by
  induction ops with
  | nil => intro acc; rfl
  | cons p rest ih =>
      intro acc
      simp only [List.foldl_cons]
      rw [ih (if p.1 = k then some p.2 else acc), ih (if p.1 = k then some p.2 else none)]
      cases hrest : rest.foldl (fun a q => if q.1 = k then some q.2 else a) none with
      | some v => simp
      | none => by_cases hp : p.1 = k <;> simp [hp]

theorem lastValue_cons (k0 v0 : Nat) (rest : List (Nat × Nat)) (k : Nat) :
    lastValue ((k0, v0) :: rest) k =
      match lastValue rest k with
      | some v => some v
      | none => if k0 = k then some v0 else none := by
  unfold lastValue
  rw [List.foldl_cons]
  exact foldl_last rest k _

theorem runInserts_ok :
    ∀ (ops : List (Nat × Nat)) (t : ChainedHashTable) (re st rn : Bool),
      0 < t.num_buckets → 0 < t.num_locks →
      (∀ p ∈ ops, p.1 ≠ INVALID_KEY ∧ p.2 ≠ INVALID_VALUE) →
      ∃ t1 rn1, runInserts t re st rn ops = some (t1, rn1) ∧
        t1.num_buckets = t.num_buckets ∧ t1.num_locks = t.num_locks ∧
        ∀ k, chainLookup (t1.buckets.getD (hash1 k t.num_buckets) []) k
            = (lastValue ops k).getD
                (chainLookup (t.buckets.getD (hash1 k t.num_buckets) []) k)
  | [], t, re, st, rn, hB, hL, _ =>
      ⟨t, rn, rfl, rfl, rfl, fun k => rfl⟩
  | (k0, v0) :: rest, t, re, st, rn, hB, hL, hops => by
      obtain ⟨hk, hv⟩ := hops (k0, v0) (List.mem_cons_self _ _)
      obtain ⟨t1, rn1, heq, hnb, hnl, hlook⟩ := insert_step t k0 v0 re st rn hk hv hB hL
      obtain ⟨t2, rn2, heq2, hnb2, hnl2, hlook2⟩ :=
        runInserts_ok rest t1 re st rn1 (by rw [hnb]; exact hB) (by rw [hnl]; exact hL)
          (fun p hp => hops p (List.mem_cons_of_mem _ hp))
      refine ⟨t2, rn2, ?_, by rw [hnb2, hnb], by rw [hnl2, hnl], ?_⟩
      · simp [runInserts, heq, heq2]
      · intro k
        have h1 := hlook2 k
        rw [hnb] at h1
        rw [h1, hlook k, lastValue_cons]
        cases hrest : lastValue rest k with
        | some v => simp
        | none =>
            by_cases hkk : k = k0
            · simp [hkk]
            · simp [hkk, Ne.symm hkk]

theorem resize_insert_eq (u : ChainedHashTable) (k v : Nat) (hL : 0 < u.num_locks) :
    resize_insert u k v =
      some ⟨u.buckets.set (hash1 k u.num_buckets)
              (⟨k, v⟩ :: u.buckets.getD (hash1 k u.num_buckets) []),
            u.num_locks, u.num_items⟩ := by
  simp [resize_insert, get_lock_idx, Nat.pos_iff_ne_zero.mp hL]

theorem rehashChain_ok :
    ∀ (xs : List Item) (u : ChainedHashTable),
      0 < u.num_locks → 0 < u.num_buckets →
      ∃ u2, rehashChain u xs = some u2 ∧ u2.num_locks = u.num_locks ∧
        u2.num_buckets = u.num_buckets ∧ u2.num_items = u.num_items ∧
        ∀ j, u2.buckets.getD j [] =
          (xs.filter (fun b => hash1 b.key u.num_buckets == j)).reverse
            ++ u.buckets.getD j []
  | [], u, _, _ => ⟨u, rfl, rfl, rfl, rfl, fun j => by simp⟩
  | it :: rest, u, hL, hB => by
      have hb : hash1 it.key u.num_buckets < u.buckets.length := hash1_lt _ _ hB
      obtain ⟨u2, h2, hl2, hb2, hi2, hch⟩ :=
        rehashChain_ok rest
          ⟨u.buckets.set (hash1 it.key u.num_buckets)
            (⟨it.key, it.value⟩ :: u.buckets.getD (hash1 it.key u.num_buckets) []),
           u.num_locks, u.num_items⟩ hL
          (by simpa [ChainedHashTable.num_buckets] using hB)
      refine ⟨u2, ?_, hl2, ?_, hi2, ?_⟩
      · rw [rehashChain, resize_insert_eq u it.key it.value hL]
        exact h2
      · rw [hb2]; simp [ChainedHashTable.num_buckets]
      · intro j
        rw [hch j]
        simp only [ChainedHashTable.num_buckets, List.length_set]
        have hb2 : hash1 it.key u.buckets.length < u.buckets.length := by
          simpa [ChainedHashTable.num_buckets] using hb
        by_cases hj : hash1 it.key u.buckets.length = j
        · rw [← hj, getD_set_self u.buckets _ _ _ hb2]
          simp [List.filter_cons, List.append_assoc]
        · rw [getD_set_ne _ _ _ _ _ hj]
          simp [List.filter_cons, hj]

theorem rehashBuckets_ok :
    ∀ (cs : List (List Item)) (u : ChainedHashTable),
      0 < u.num_locks → 0 < u.num_buckets →
      ∃ u2, rehashBuckets u cs = some u2 ∧ u2.num_locks = u.num_locks ∧
        u2.num_buckets = u.num_buckets ∧ u2.num_items = u.num_items ∧
        ∀ j, u2.buckets.getD j [] =
          ((allItems cs).filter (fun b => hash1 b.key u.num_buckets == j)).reverse
            ++ u.buckets.getD j []
  | [], u, _, _ => ⟨u, rfl, rfl, rfl, rfl, fun j => by simp [allItems]⟩
  | c :: cs, u, hL, hB => by
      obtain ⟨u1, h1, hl1, hb1, hi1, hch1⟩ := rehashChain_ok c u hL hB
      obtain ⟨u2, h2, hl2, hb2, hi2, hch2⟩ :=
        rehashBuckets_ok cs u1 (by rw [hl1]; exact hL) (by rw [hb1]; exact hB)
      refine ⟨u2, ?_, by rw [hl2, hl1], by rw [hb2, hb1], by rw [hi2, hi1], ?_⟩
      · rw [rehashBuckets, h1]
        exact h2
      · intro j
        rw [hch2 j, hb1, hch1 j]
        simp [allItems, List.filter_append, List.reverse_append, List.append_assoc]

theorem resize_ok (t : ChainedHashTable)
    (hB : 0 < t.num_buckets) (hL : 0 < t.num_locks)
    (hB2 : t.num_buckets * 2 < U64_SIZE) (hL2 : t.num_locks * 2 < U64_SIZE) :
    ∃ t2, resize t = some t2 ∧ t2.num_buckets = t.num_buckets * 2 ∧
      t2.num_locks = t.num_locks * 2 ∧ t2.num_items = t.num_items ∧
      ∀ j, t2.buckets.getD j [] =
        ((allItems t.buckets).filter
          (fun b => hash1 b.key (t.num_buckets * 2) == j)).reverse := by
  have hmb : t.num_buckets * 2 % U64_SIZE = t.num_buckets * 2 := Nat.mod_eq_of_lt hB2
  have hml : t.num_locks * 2 % U64_SIZE = t.num_locks * 2 := Nat.mod_eq_of_lt hL2
  obtain ⟨t2, h2, hl2, hb2, hi2, hch2⟩ :=
    rehashBuckets_ok t.buckets
      ⟨List.replicate (t.num_buckets * 2) [], t.num_locks * 2, t.num_items⟩
      (by show 0 < t.num_locks * 2; omega)
      (by show 0 < (List.replicate (t.num_buckets * 2) ([] : List Item)).length
          rw [List.length_replicate]; omega)
  refine ⟨t2, ?_, ?_, ?_, ?_, ?_⟩
  · rw [resize]
    simp only [create_table, hmb, hml]
    exact h2
  · rw [hb2]; simp [ChainedHashTable.num_buckets]
  · rw [hl2]
  · rw [hi2]
  · intro j
    rw [hch2 j]
    simp only [ChainedHashTable.num_buckets, List.length_replicate]
    rw [getD_replicate]
    simp

theorem lookup_eq (t : ChainedHashTable) (k : Nat)
    (hk : k ≠ INVALID_KEY) (hL : 0 < t.num_locks) :
    lookup t k = some (chainLookup (t.buckets.getD (hash1 k t.num_buckets) []) k) := by
  simp [lookup, hk, get_lock_idx, Nat.pos_iff_ne_zero.mp hL]

/-! The claims. -/

/-- C3: sentinel rejection with state atomicity.  `insert` with
`INVALID_KEY`, and `insert` with `INVALID_VALUE`, return the table and
the `resize_needed` flag entirely unchanged (no node added, no value
overwritten, `num_items` and `resize_needed` untouched), and
`lookup INVALID_KEY` returns `INVALID_VALUE` for every table — in
particular without examining any bucket or lock index, since this holds
even for tables with `num_locks = 0` where a bucket access would be
undefined behaviour. -/
theorem c3_sentinel_rejection :
    ∀ (t : ChainedHashTable) (k v : Nat) (re st rn : Bool),
      insert t INVALID_KEY v re st rn = some (t, rn) ∧
      insert t k INVALID_VALUE re st rn = some (t, rn) ∧
      lookup t INVALID_KEY = some INVALID_VALUE := by
  intro t k v re st rn
  refine ⟨by simp [insert], ?_, by simp [lookup]⟩
  by_cases hk : k = INVALID_KEY <;> simp [insert, hk]

/-- C7 counterexample: the claim "the bucket index computed by both
variants equals `((k * 37) + 13) mod B`" (over the mathematical
integers) fails at `k = 2 ^ 64 - 1`, `B = 10`: the code's wrapping
computation gives bucket 2 while the integer formula gives bucket 8. -/
theorem c7_hash_formula_counterexample :
    hash1 18446744073709551615 10 = 2 ∧
    hash1_spec 18446744073709551615 10 = 8 ∧
    hash1 18446744073709551615 10 ≠ hash1_spec 18446744073709551615 10 := by
  refine ⟨by decide, by decide, by decide⟩

/-- C7 amended: both variants compute the identical bucket index
`((k * 37 + 13) mod 2 ^ 64) mod B`, and whenever `k * 37 + 13` does not
overflow 64 bits this coincides with the spec formula
`(k * 37 + 13) mod B`; for overflowing keys the two can differ (see the
counterexample). -/
theorem c7_hash_wrap_amended :
    (∀ k B, hash1_lock_free k B = hash1 k B) ∧
    (∀ k B, hash1 k B = ((k * 37 + 13) % U64_SIZE) % B) ∧
    (∀ k B, k * 37 + 13 < U64_SIZE → hash1 k B = hash1_spec k B) := by
  refine ⟨fun k B => rfl, fun k B => rfl, fun k B h => ?_⟩
  unfold hash1 hash1_spec
  rw [Nat.mod_eq_of_lt h]

/-- C7 witness: a non-overflowing key where the code and the spec
formula agree. -/
theorem c7_hash_wrap_amended_witness : hash1 1 4 = hash1_spec 1 4 :=
  c7_hash_wrap_amended.2.2 1 4 (by decide)

/-- C8 counterexample: the claim "values < 1 reset to the default 64"
fails for `-b -1`: the code only checks `initial_buckets == 0`, so `-1`
is passed through unchanged. -/
theorem c8_bucket_validation_counterexample :
    validate_initial_buckets (-1) = -1 ∧ ((-1 : Int) < 1) ∧ ((-1 : Int) ≠ 64) := by
  refine ⟨by decide, by decide, by decide⟩

/-- C8 amended: only an argument equal to 0 is reset to the default
`INIT_NUM_BUCKETS = 64`; every nonzero argument, including every
negative one, is used as given. -/
theorem c8_bucket_validation_amended :
    validate_initial_buckets 0 = (INIT_NUM_BUCKETS : Int) ∧
    (∀ n : Int, n ≠ 0 → validate_initial_buckets n = n) := by
  refine ⟨rfl, fun n hn => ?_⟩
  simp [validate_initial_buckets, hn]

/-- C8 witness: the amended claim at the concrete argument `-5`. -/
theorem c8_bucket_validation_amended_witness :
    validate_initial_buckets (-5) = -5 :=
  c8_bucket_validation_amended.2 (-5) (by decide)

/-- C10: for every initial bucket count from 1 to 7 the driver's
`create_table(initial_buckets, initial_buckets / 8)` produces a table
with `num_locks = 0`, so `get_lock_idx` is a modulo by zero for every
bucket index (modelled as `none`), and the very first `lookup` or
`insert` with a valid key hits that undefined computation. -/
theorem c10_lock_stripe_undefined :
    ∀ b, 1 ≤ b → b ≤ 7 →
      (main_create_table b).num_locks = 0 ∧
      (∀ j, get_lock_idx (main_create_table b) j = none) ∧
      (∀ k, k ≠ INVALID_KEY → lookup (main_create_table b) k = none) ∧
      (∀ k v re st rn, k ≠ INVALID_KEY → v ≠ INVALID_VALUE →
        insert (main_create_table b) k v re st rn = none) := by
  intro b h1 h7
  have hdiv : b / INIT_NUM_LOCKS_DIV = 0 :=
    Nat.div_eq_of_lt (by unfold INIT_NUM_LOCKS_DIV; omega)
  have hl : (main_create_table b).num_locks = 0 := by
    simp [main_create_table, create_table, hdiv]
  refine ⟨hl, fun j => ?_, fun k hk => ?_, fun k v re st rn hk hv => ?_⟩
  · simp [get_lock_idx, hl]
  · simp [lookup, hk, get_lock_idx, hl]
  · simp [insert, hk, hv, get_lock_idx, hl]

/-- C10 witness: bucket count 4 gives zero locks and an undefined first
lookup. -/
theorem c10_lock_stripe_undefined_witness :
    (main_create_table 4).num_locks = 0 ∧ lookup (main_create_table 4) 0 = none := by
  have h := c10_lock_stripe_undefined 4 (by decide) (by decide)
  exact ⟨h.1, h.2.2.1 0 (by decide)⟩

/-- C4: an insert with valid key and value sets `resize_needed` if and
only if it either was already set, or the insert added a new node (the
scan found no existing key), resizing is enabled, and the scan depth —
the full chain length on the not-found path — is at least
`MAX_CHAIN_SIZE = 8`; an update-in-place insert always leaves the flag
exactly as it was, regardless of chain length. -/
theorem c4_resize_trigger :
    ∀ (t : ChainedHashTable) (k v : Nat) (re st rn : Bool)
      (t2 : ChainedHashTable) (rn2 : Bool),
      k ≠ INVALID_KEY → v ≠ INVALID_VALUE →
      0 < t.num_buckets → 0 < t.num_locks →
      insert t k v re st rn = some (t2, rn2) →
      ((rn2 = true ↔ (rn = true ∨
          (updateChain (t.buckets.getD (hash1 k t.num_buckets) []) k v = none ∧
           re = true ∧
           MAX_CHAIN_SIZE ≤ (t.buckets.getD (hash1 k t.num_buckets) []).length))) ∧
       (∀ c, updateChain (t.buckets.getD (hash1 k t.num_buckets) []) k v = some c →
          rn2 = rn)) := by
  intro t k v re st rn t2 rn2 hk hv hB hL hins
  have hL0 : t.num_locks ≠ 0 := Nat.pos_iff_ne_zero.mp hL
  cases huc : updateChain (t.buckets.getD (hash1 k t.num_buckets) []) k v with
  | some c =>
      have huc2 := huc
      simp only [List.getD_eq_getElem?_getD] at huc2
      simp [insert, hk, hv, get_lock_idx, hL0, huc2] at hins
      obtain ⟨-, hrn⟩ := hins
      subst hrn
      refine ⟨by simp [huc], fun c2 h2 => rfl⟩
  | none =>
      have huc2 := huc
      simp only [List.getD_eq_getElem?_getD] at huc2
      simp [insert, hk, hv, get_lock_idx, hL0, huc2] at hins
      obtain ⟨-, hrn⟩ := hins
      constructor
      · rw [← hrn]
        simp only [List.getD_eq_getElem?_getD, huc2, Bool.or_eq_true, Bool.and_eq_true,
          decide_eq_true_eq, true_and]
        tauto
      · intro c2 h2
        exact Option.noConfusion h2

/-- C4 witness: inserting a fresh key into an empty one-bucket table
adds a node at depth 0 and leaves the flag clear. -/
theorem c4_resize_trigger_witness :
    ((false = true ↔ (false = true ∨
        (updateChain (((create_table 1 1).buckets).getD
            (hash1 0 (create_table 1 1).num_buckets) []) 0 5 = none ∧
         true = true ∧
         MAX_CHAIN_SIZE ≤ (((create_table 1 1).buckets).getD
            (hash1 0 (create_table 1 1).num_buckets) []).length))) ∧
     (∀ c, updateChain (((create_table 1 1).buckets).getD
          (hash1 0 (create_table 1 1).num_buckets) []) 0 5 = some c →
        false = false)) :=
  c4_resize_trigger (create_table 1 1) 0 5 true false false
    ⟨[[⟨0, 5⟩]], 1, 1⟩ false
    (by decide) (by decide) (by decide) (by decide) (by decide)

/-- C6: under the always-true side conditions (at least one bucket and
one lock, no `size_t` overflow of the doubling), every resize succeeds
and produces a table with exactly `2 * num_buckets` buckets and
`2 * num_locks` locks, and with `num_items` copied verbatim from the
old table. -/
theorem c6_resize_structure :
    ∀ t : ChainedHashTable, 0 < t.num_buckets → 0 < t.num_locks →
      t.num_buckets * 2 < U64_SIZE → t.num_locks * 2 < U64_SIZE →
      ∃ t2, resize t = some t2 ∧ t2.num_buckets = 2 * t.num_buckets ∧
        t2.num_locks = 2 * t.num_locks ∧ t2.num_items = t.num_items := by
  intro t hB hL hB2 hL2
  obtain ⟨t2, h, hb, hl, hi, -⟩ := resize_ok t hB hL hB2 hL2
  exact ⟨t2, h, by rw [hb]; ring, by rw [hl]; ring, hi⟩

/-- C6 witness: resizing a one-bucket, one-lock table. -/
theorem c6_resize_structure_witness :
    ∃ t2, resize ⟨[[]], 1, 0⟩ = some t2 ∧
      t2.num_buckets = 2 * (⟨[[]], 1, 0⟩ : ChainedHashTable).num_buckets ∧
      t2.num_locks = 2 * (⟨[[]], 1, 0⟩ : ChainedHashTable).num_locks ∧
      t2.num_items = (⟨[[]], 1, 0⟩ : ChainedHashTable).num_items :=
  c6_resize_structure ⟨[[]], 1, 0⟩ (by decide) (by decide) (by decide) (by decide)

/-- C5: with metric tracking enabled (`speed_test` off), an insert
that adds a new node increments `num_items` by exactly 1, an
update-in-place insert leaves it unchanged, a sentinel-rejected insert
leaves the whole state (hence the counter) unchanged, and on any fresh
table `insert (7, 1); insert (7, 2)` ends with `num_items = 1`. -/
theorem c5_num_items_counter :
    (∀ (t : ChainedHashTable) (k v : Nat) (re rn : Bool),
        k ≠ INVALID_KEY → v ≠ INVALID_VALUE →
        0 < t.num_buckets → 0 < t.num_locks →
        ∃ t2 rn2, insert t k v re false rn = some (t2, rn2) ∧
          t2.num_items =
            (if (updateChain (t.buckets.getD (hash1 k t.num_buckets) []) k v).isNone
             then t.num_items + 1 else t.num_items)) ∧
    (∀ (t : ChainedHashTable) (k v : Nat) (re st rn : Bool),
        insert t INVALID_KEY v re st rn = some (t, rn) ∧
        insert t k INVALID_VALUE re st rn = some (t, rn)) ∧
    (∀ (B L : Nat) (re rn : Bool), 0 < B → 0 < L →
        ∃ t2 rn2,
          runInserts (create_table B L) re false rn [(7, 1), (7, 2)] = some (t2, rn2) ∧
          t2.num_items = 1) := by
  refine ⟨?_, ?_, ?_⟩
  · intro t k v re rn hk hv hB hL
    have hL0 : t.num_locks ≠ 0 := Nat.pos_iff_ne_zero.mp hL
    cases huc : updateChain (t.buckets.getD (hash1 k t.num_buckets) []) k v with
    | some c =>
        have huc2 := huc
        simp only [List.getD_eq_getElem?_getD] at huc2
        refine ⟨⟨t.buckets.set (hash1 k t.num_buckets) c, t.num_locks, t.num_items⟩, rn,
          ?_, by simp [huc]⟩
        simp [insert, hk, hv, get_lock_idx, hL0, huc2]
    | none =>
        have huc2 := huc
        simp only [List.getD_eq_getElem?_getD] at huc2
        refine ⟨⟨t.buckets.set (hash1 k t.num_buckets)
            (⟨k, v⟩ :: t.buckets.getD (hash1 k t.num_buckets) []),
          t.num_locks, t.num_items + 1⟩,
          (re && decide (MAX_CHAIN_SIZE ≤
            (t.buckets.getD (hash1 k t.num_buckets) []).length) || rn),
          ?_, by simp [huc]⟩
        simp [insert, hk, hv, get_lock_idx, hL0, huc2]
  · intro t k v re st rn
    refine ⟨by simp [insert], ?_⟩
    by_cases hk : k = INVALID_KEY <;> simp [insert, hk]
  · intro B L re rn hB hL
    have hL0 : L ≠ 0 := Nat.pos_iff_ne_zero.mp hL
    have hblt : hash1 7 B < B := hash1_lt 7 B hB
    have hch0 : (List.replicate B ([] : List Item)).getD (hash1 7 B) [] = [] :=
      getD_replicate _ _ _
    have hnb0 : (create_table B L).num_buckets = B := by
      simp [create_table, ChainedHashTable.num_buckets]
    have h1 : insert (create_table B L) 7 1 re false rn =
        some (⟨(List.replicate B []).set (hash1 7 B) [⟨7, 1⟩], L, 1⟩, rn) := by
      have hch0e : (List.replicate B ([] : List Item))[hash1 7 B]?.getD [] = [] := by
        rw [← List.getD_eq_getElem?_getD]; exact hch0
      simp [insert, get_lock_idx, hL0, create_table, ChainedHashTable.num_buckets,
        List.length_replicate, hch0e, updateChain, chainLookup, INVALID_KEY,
        INVALID_VALUE, U64_SIZE, MAX_CHAIN_SIZE]
    have hb1 : ((List.replicate B ([] : List Item)).set (hash1 7 B) [⟨7, 1⟩]).getD
        (hash1 7 B) [] = [⟨7, 1⟩] := by
      refine getD_set_self _ _ _ _ ?_
      rw [List.length_replicate]
      exact hblt
    have h2 : insert (⟨(List.replicate B []).set (hash1 7 B) [⟨7, 1⟩], L, 1⟩ :
        ChainedHashTable) 7 2 re false rn =
        some (⟨((List.replicate B []).set (hash1 7 B)
          [⟨7, 1⟩]).set (hash1 7 B) [⟨7, 2⟩], L, 1⟩, rn) := by
      have hb1e : ((List.replicate B ([] : List Item)).set (hash1 7 B)
          [⟨7, 1⟩])[hash1 7 B]?.getD [] = [⟨7, 1⟩] := by
        rw [← List.getD_eq_getElem?_getD]; exact hb1
      have hnb1 : (⟨(List.replicate B []).set (hash1 7 B) [⟨7, 1⟩], L, 1⟩ :
          ChainedHashTable).num_buckets = B := by
        simp [ChainedHashTable.num_buckets]
      simp [insert, get_lock_idx, hL0, hnb1, hb1e, updateChain, INVALID_KEY,
        INVALID_VALUE, U64_SIZE]
    refine ⟨⟨((List.replicate B []).set (hash1 7 B) [⟨7, 1⟩]).set (hash1 7 B) [⟨7, 2⟩],
      L, 1⟩, rn, ?_, rfl⟩
    simp only [runInserts, h1, h2]
  

/-- C5 witness: the new-node case and the overwrite scenario at concrete
inputs. -/
theorem c5_num_items_counter_witness :
    (∃ t2 rn2, insert (create_table 1 1) 3 4 true false false = some (t2, rn2) ∧
      t2.num_items =
        (if (updateChain (((create_table 1 1).buckets).getD
            (hash1 3 (create_table 1 1).num_buckets) []) 3 4).isNone
         then (create_table 1 1).num_items + 1 else (create_table 1 1).num_items)) ∧
    (∃ t2 rn2,
      runInserts (create_table 4 1) true false false [(7, 1), (7, 2)] = some (t2, rn2) ∧
      t2.num_items = 1) :=
  ⟨c5_num_items_counter.1 (create_table 1 1) 3 4 true false
      (by decide) (by decide) (by decide) (by decide),
   c5_num_items_counter.2.2 4 1 true false (by decide) (by decide)⟩

/-- C1: starting from a fresh table, any sequence of inserts with valid
keys and values succeeds, and a subsequent lookup of a valid key returns
the value of the most recent insert under that key, or `INVALID_VALUE`
if the key was never inserted (so in particular
`insert (k, v1); insert (k, v2); lookup k = v2`). -/
theorem c1_sequential_lookup :
    ∀ (B L : Nat) (ops : List (Nat × Nat)) (k : Nat) (re st rn : Bool),
      0 < B → 0 < L →
      (∀ p ∈ ops, p.1 ≠ INVALID_KEY ∧ p.2 ≠ INVALID_VALUE) →
      k ≠ INVALID_KEY →
      ∃ t2 rn2, runInserts (create_table B L) re st rn ops = some (t2, rn2) ∧
        lookup t2 k = some ((lastValue ops k).getD INVALID_VALUE) := by
  intro B L ops k re st rn hB hL hops hk
  have hB0 : 0 < (create_table B L).num_buckets := by
    show 0 < (List.replicate B ([] : List Item)).length
    rw [List.length_replicate]; exact hB
  have hL0 : 0 < (create_table B L).num_locks := hL
  obtain ⟨t2, rn2, heq, hnb, hnl, hlook⟩ :=
    runInserts_ok ops (create_table B L) re st rn hB0 hL0 hops
  refine ⟨t2, rn2, heq, ?_⟩
  rw [lookup_eq t2 k hk (by rw [hnl]; exact hL0)]
  have hnbB : (create_table B L).num_buckets = B := by
    simp [create_table, ChainedHashTable.num_buckets]
  have h1 := hlook k
  rw [hnbB] at h1
  have hempty : ((create_table B L).buckets).getD (hash1 k B) [] = [] :=
    getD_replicate _ _ _
  rw [hempty] at h1
  have hnb2 : t2.num_buckets = B := by rw [hnb, hnbB]
  rw [hnb2, h1]
  rfl

/-- C1 witness: the overwrite instance `insert (7,1); insert (7,2);
lookup 7 = 2` on a fresh 4-bucket table. -/
theorem c1_sequential_lookup_witness :
    ∃ t2 rn2,
      runInserts (create_table 4 1) true false false [(7, 1), (7, 2)] = some (t2, rn2) ∧
      lookup t2 7 = some ((lastValue [(7, 1), (7, 2)] 7).getD INVALID_VALUE) :=
  c1_sequential_lookup 4 1 [(7, 1), (7, 2)] 7 true false false
    (by decide) (by decide) (by decide) (by decide)

/-- C2 counterexample: the claim quantifies over every table satisfying
invariant I1 alone (each chain holds each key at most once), but I1 does
not survive a resize on its own.  The table with the node `(0, 5)`
placed in bucket 0 while `hash1 0 2 = 1` satisfies I1, yet the
pre-resize lookup of key 0 misses (`INVALID_VALUE`) while the rehash
moves the node to the bucket key 0 actually hashes to, so the
post-resize lookup returns 5. -/
theorem c2_resize_claim_counterexample :
    chainsUnique ⟨[[⟨0, 5⟩], []], 1, 1⟩ ∧
    lookup ⟨[[⟨0, 5⟩], []], 1, 1⟩ 0 = some INVALID_VALUE ∧
    ((resize ⟨[[⟨0, 5⟩], []], 1, 1⟩).bind (fun t2 => lookup t2 0)) = some 5 ∧
    (5 : Nat) ≠ INVALID_VALUE := by
  refine ⟨by unfold chainsUnique; decide, by decide, by decide, by decide⟩

/-- C2 amended: resize preserves every lookup for tables satisfying
both invariant I1 (per-chain key uniqueness) and invariant I2
(placement: every node sits in the bucket its key hashes to) — the two
invariants the insert path maintains together — under the always-true
side conditions on sizes. -/
theorem c2_resize_preserves_lookup :
    ∀ t : ChainedHashTable,
      0 < t.num_buckets → 0 < t.num_locks →
      t.num_buckets * 2 < U64_SIZE → t.num_locks * 2 < U64_SIZE →
      chainsUnique t → placedTable t →
      ∃ t2, resize t = some t2 ∧ ∀ k, lookup t2 k = lookup t k := by
  intro t hB hL hB2 hL2 huniq hplaced
  obtain ⟨t2, heq, hb, hl, hi, hch⟩ := resize_ok t hB hL hB2 hL2
  refine ⟨t2, heq, ?_⟩
  intro k
  by_cases hk : k = INVALID_KEY
  · subst hk; simp [lookup]
  · have hL2p : 0 < t2.num_locks := by rw [hl]; omega
    rw [lookup_eq t k hk hL, lookup_eq t2 k hk hL2p]
    congr 1
    rw [hb, hch (hash1 k (t.num_buckets * 2))]
    by_cases hex : ∃ it ∈ t.buckets.getD (hash1 k t.num_buckets) [], it.key = k
    · obtain ⟨it0, hmem0, hkey0⟩ := hex
      have hub0 : keyUniqueChain (t.buckets.getD (hash1 k t.num_buckets) []) = true :=
        huniq _ (hash1_lt k _ hB)
      have helem : ∀ it, it ∈ allItems t.buckets → it.key = k → it = it0 := by
        intro it hmem hkey
        obtain ⟨j, hj, hmemj⟩ := mem_allItems_index t.buckets it hmem
        have hjb : hash1 it.key t.num_buckets = j := hplaced j hj it hmemj
        have hjeq : j = hash1 k t.num_buckets := by rw [← hjb, hkey]
        rw [hjeq] at hmemj
        exact keyUniqueChain_mem_eq _ hub0 it it0 hmemj hmem0 (by rw [hkey, hkey0])
      have hold : chainLookup (t.buckets.getD (hash1 k t.num_buckets) []) k = it0.value :=
        chainLookup_unique _ k it0 hmem0 hkey0
          (fun it hm hkk => keyUniqueChain_mem_eq _ hub0 it it0 hm hmem0 (by rw [hkk, hkey0]))
      have hmemall : it0 ∈ allItems t.buckets :=
        allItems_of_mem t.buckets (hash1 k t.num_buckets) it0 (hash1_lt k _ hB) hmem0
      have hmemnew : it0 ∈ ((allItems t.buckets).filter
          (fun b => hash1 b.key (t.num_buckets * 2) == hash1 k (t.num_buckets * 2))).reverse := by
        rw [List.mem_reverse, List.mem_filter]
        refine ⟨hmemall, ?_⟩
        rw [hkey0]
        simp
      have hnew : chainLookup ((allItems t.buckets).filter
          (fun b => hash1 b.key (t.num_buckets * 2) == hash1 k (t.num_buckets * 2))).reverse k
          = it0.value := by
        refine chainLookup_unique _ k it0 hmemnew hkey0 ?_
        intro it hm hkk
        rw [List.mem_reverse, List.mem_filter] at hm
        exact helem it hm.1 hkk
      rw [hnew, hold]
    · push_neg at hex
      have hold : chainLookup (t.buckets.getD (hash1 k t.num_buckets) []) k = INVALID_VALUE :=
        chainLookup_not_found _ _ hex
      have hnew : chainLookup ((allItems t.buckets).filter
          (fun b => hash1 b.key (t.num_buckets * 2) == hash1 k (t.num_buckets * 2))).reverse k
          = INVALID_VALUE := by
        refine chainLookup_not_found _ _ ?_
        intro it hm hkk
        rw [List.mem_reverse, List.mem_filter] at hm
        obtain ⟨j, hj, hmemj⟩ := mem_allItems_index t.buckets it hm.1
        have hjb : hash1 it.key t.num_buckets = j := hplaced j hj it hmemj
        have hjeq : j = hash1 k t.num_buckets := by rw [← hjb, hkk]
        rw [hjeq] at hmemj
        exact hex it hmemj hkk
      rw [hnew, hold]

/-- C2 witness: a well-placed one-node table where resize preserves all
lookups. -/
theorem c2_resize_preserves_lookup_witness :
    ∃ t2, resize ⟨[[⟨1, 100⟩], []], 1, 1⟩ = some t2 ∧
      ∀ k, lookup t2 k = lookup ⟨[[⟨1, 100⟩], []], 1, 1⟩ k :=
  c2_resize_preserves_lookup ⟨[[⟨1, 100⟩], []], 1, 1⟩
    (by decide) (by decide) (by decide) (by decide)
    (by unfold chainsUnique; decide) (by unfold placedTable; decide)

theorem dispatchGo_exit :
    ∀ (reads : List Nat) (rflags : List Bool) (count : Nat) (temp : Bool),
      count < MAX_TASK_POOL - 1 →
      (dispatchGo reads rflags count temp false).sawZero = false →
      (dispatchGo reads rflags count temp false).eof = false ∧
      ((dispatchGo reads rflags count temp false).count = MAX_TASK_POOL - 1 ∨
       (dispatchGo reads rflags count temp false).temp = true) := by
  intro reads
  induction reads with
  | nil =>
      intro rflags count temp hc hz
      simp [dispatchGo] at hz
  | cons bytes rest ih =>
      intro rflags count temp hc hz
      by_cases hb : bytes = 0
      · simp [dispatchGo, hb] at hz
      · by_cases hcnt : MAX_TASK_POOL - 1 ≤ count + 1
        · have hce : count + 1 = MAX_TASK_POOL - 1 := by
            unfold MAX_TASK_POOL at hc hcnt ⊢; omega
          simp [dispatchGo, hb, hcnt]
          exact Or.inl hce
        · cases hh : rflags.headD false with
          | true =>
              have hh2 : rflags.head?.getD false = true := by
                rw [← List.headD_eq_head?_getD]; exact hh
              simp [dispatchGo, hb, hcnt, hh2]
          | false =>
              have hlt : count + 1 < MAX_TASK_POOL - 1 := by
                unfold MAX_TASK_POOL at hc hcnt ⊢; omega
              simp only [dispatchGo, if_neg hb, if_neg hcnt, hh] at hz ⊢
              simp only [Bool.false_eq_true, if_false] at hz ⊢
              exact ih rflags.tail (count + 1) false hlt hz

/-- C9 counterexample: the claimed premature end-of-file cannot happen
in `main.c`.  There is no input stream and no sequence of observed
`resize_needed` values on which the dispatch phase dispatches exactly
`MAX_TASK_POOL - 1` tasks with no `fread` returning zero bytes and still
sets `end_of_file`: the loop exits with `count = MAX_TASK_POOL - 1` or
with `temp_resize_needed` set, and the line-229 guard
`!(count == MAX_TASK_POOL - 1) && !(temp_resize_needed)` is false in
both cases. -/
theorem c9_premature_eof_counterexample :
    ¬ ∃ (reads : List Nat) (rflags : List Bool),
        (dispatchBatch reads rflags).count = MAX_TASK_POOL - 1 ∧
        (dispatchBatch reads rflags).sawZero = false ∧
        (dispatchBatch reads rflags).eof = true := by
  rintro ⟨reads, rflags, hcount, hz, heof⟩
  have h0 : (0 : Nat) < MAX_TASK_POOL - 1 := by unfold MAX_TASK_POOL; omega
  have hz2 : (dispatchGo reads rflags 0 false false).sawZero = false := hz
  obtain ⟨heof0, hdisj⟩ := dispatchGo_exit reads rflags 0 false h0 hz2
  have heof2 : ((dispatchGo reads rflags 0 false false).eof ||
      (!((dispatchGo reads rflags 0 false false).count == MAX_TASK_POOL - 1) &&
       !(dispatchGo reads rflags 0 false false).temp)) = true := heof
  rw [heof0] at heof2
  simp only [Bool.false_or, Bool.and_eq_true, Bool.not_eq_true',
    Bool.not_eq_eq_eq_not] at heof2
  rcases hdisj with hd | hd
  · have : ((dispatchGo reads rflags 0 false false).count ==
        MAX_TASK_POOL - 1) = true := by
      simp [hd]
    simp [this] at heof2
  · simp [hd] at heof2

/-- C9 amended: the dispatch phase of `main.c` sets `end_of_file` only
when some `fread` returned zero bytes.  On every input on which no read
returned zero — in particular one that dispatches exactly
`MAX_TASK_POOL - 1` tasks — `end_of_file` stays clear and the driver
continues with the next batch; end-of-file is declared exactly when a
read yields zero bytes, as the spec says it should be. -/
theorem c9_dispatch_eof_amended :
    ∀ (reads : List Nat) (rflags : List Bool),
      (dispatchBatch reads rflags).sawZero = false →
      (dispatchBatch reads rflags).eof = false := by
  intro reads rflags hz
  have h0 : (0 : Nat) < MAX_TASK_POOL - 1 := by unfold MAX_TASK_POOL; omega
  have hz2 : (dispatchGo reads rflags 0 false false).sawZero = false := hz
  obtain ⟨heof0, hdisj⟩ := dispatchGo_exit reads rflags 0 false h0 hz2
  show ((dispatchGo reads rflags 0 false false).eof ||
      (!((dispatchGo reads rflags 0 false false).count == MAX_TASK_POOL - 1) &&
       !(dispatchGo reads rflags 0 false false).temp)) = false
  rw [heof0]
  rcases hdisj with hd | hd
  · simp [hd]
  · simp [hd]

/-- C9 witness: a batch cut short by an observed resize request keeps
`end_of_file` clear. -/
theorem c9_dispatch_eof_amended_witness :
    (dispatchBatch [5] [true]).eof = false :=
  c9_dispatch_eof_amended [5] [true] (by decide)

end Chained
